import Mathlib

/-!
Shallow embedding of the in-memory, channel-partitioned message board in
`src/main.go` (the version using `map[string]*subject`, where each `subject`
carries its channel's message log and an RWMutex).

Each HTTP handler body is embedded as a pure function from the registry state
(the `liveMessages` map) and its already-decoded inputs to a new state and a
result.  Locks make each handler's critical section atomic, so a handler
invocation is one atomic step of the sequential semantics; properties about
goroutine interleavings themselves are outside this embedding.

Go runtime behaviours are made explicit:
  * `liveMessages[channel]` on a missing key yields the zero value `nil`,
    embedded as `Option`;
  * slice indexing `s[i]` and slicing `s[i:]` panic when `i` is out of range
    (in particular for negative `i`), embedded by `goIndex` / `goSuffix`
    returning `none`, which the handlers surface as a `panicked` outcome;
  * `strings.ToLower` on the channel-name alphabet `[A-Z,a-z,0-9,-]` (the
    router's pattern) is ASCII lowercasing, embedded by `goToLower` via
    `Char.toLower`.
-/

/-- `type Thread struct { Username, Message string }` — a sub-conversation
entry attached to one message. -/
structure Thread where
  Username : String
  Message : String
deriving DecidableEq, Repr

/-- `type msgPost struct { Id int; Username, Message string; Threads []Thread }`. -/
structure msgPost where
  Id : Int
  Username : String
  Message : String
  Threads : List Thread
deriving DecidableEq, Repr

/-- `type subject struct { sync.RWMutex; Messages []msgPost; title string }` —
one channel's store (the mutex itself has no sequential content). -/
structure subject where
  Messages : List msgPost
  title : String
deriving DecidableEq, Repr

/-- The `liveMessages` map: channel name to its (pointer to a) `subject`;
a missing key reads as `nil`, i.e. `none`. -/
def Registry : Type := String → Option subject

/-- The state installed by `main`: `liveMessages = make(map[string]*subject)`. -/
def initialRegistry : Registry := fun _ => none

/-- Map update `liveMessages[channel] = subj`. -/
def setChannel (st : Registry) (channel : String) (subj : subject) : Registry :=
  fun n => if n = channel then some subj else st n

/-- `strings.ToLower` restricted to the router's channel-name alphabet
`[A-Z,a-z,0-9,-]`: ASCII lowercasing, character by character. -/
def goToLower (s : String) : String :=
  String.mk (s.data.map Char.toLower)

/-- Go slice indexing `xs[i]` with an `int` index: the value when
`0 ≤ i < len xs`, `none` (a runtime panic) otherwise. -/
def goIndex {α : Type} (xs : List α) (i : Int) : Option α :=
  if 0 ≤ i ∧ i < (xs.length : Int) then xs.get? i.toNat else none

/-- Go slicing `xs[i:]` with an `int` index: the suffix when `0 ≤ i ≤ len xs`,
`none` (a runtime panic) otherwise. -/
def goSuffix {α : Type} (xs : List α) (i : Int) : Option (List α) :=
  if 0 ≤ i ∧ i ≤ (xs.length : Int) then some (xs.drop i.toNat) else none

/-- Replace the element at position `i` by `f` of it; identity when `i` is out
of range (used only under an in-range guard, mirroring `Messages[id].Threads =
append(...)`). -/
def modifyAt {α : Type} (xs : List α) (i : Nat) (f : α → α) : List α :=
  match xs, i with
  | [], _ => []
  | x :: rest, 0 => f x :: rest
  | x :: rest, Nat.succ j => x :: modifyAt rest j f

/-- Outcome of `getMessage`, after the transport-level `last_id` parse. -/
inductive GetMessageRes
  | messages (ms : List msgPost)  -- 200 with `{"messages": ...}`
  | noNewMessage                  -- "No new message after last_id"
  | noSuchChannel                 -- "Sorry No such channel exist!"
  | panicked                      -- runtime panic: slice bounds out of range
deriving DecidableEq, Repr

/-- Outcome of `getThreads`. -/
inductive GetThreadsRes
  | threads (ts : List Thread)    -- 200 with `{"messages": ...}`
  | noMessageForId                -- "No message for the provided id"
  | noSuchChannel                 -- "Sorry No such channel exist!"
  | panicked                      -- runtime panic: index out of range
deriving DecidableEq, Repr

/-- Outcome of `postMessage`. -/
inductive PostMessageRes
  | ok (id : Int)                 -- 200 with `{"id": id}`
  | emptyField                    -- "Empty username or message!"
deriving DecidableEq, Repr

/-- Outcome of `postThread`. -/
inductive PostThreadRes
  | ok (id : Int)                 -- 200 with `{"id": id}` (echoed message id)
  | emptyField                    -- "Empty username or message!"
  | noSuchChannel                 -- "Provided channel does not exist!"
  | noMessageForId                -- "Provided messageId does not exist!"
  | panicked                      -- runtime panic: index out of range
deriving DecidableEq, Repr

/-- `getMessage`: lowercases the channel, looks it up, rejects
`last_id >= len(Messages)` as "no new message", otherwise returns the suffix
`Messages[last_id:]`.  The handler never writes the state. -/
def getMessage (st : Registry) (channelRaw : String) (lastId : Int) :
    Registry × GetMessageRes :=
  match st (goToLower channelRaw) with
  | some subj =>
    if lastId ≥ (subj.Messages.length : Int) then (st, .noNewMessage)
    else
      match goSuffix subj.Messages lastId with
      | some ms => (st, .messages ms)
      | none => (st, .panicked)
  | none => (st, .noSuchChannel)

/-- `getThreads`: lowercases the channel, looks it up, rejects
`message_id >= len(Messages)`, otherwise returns `Messages[message_id].Threads`.
The handler never writes the state. -/
def getThreads (st : Registry) (channelRaw : String) (messageId : Int) :
    Registry × GetThreadsRes :=
  match st (goToLower channelRaw) with
  | some subj =>
    if messageId ≥ (subj.Messages.length : Int) then (st, .noMessageForId)
    else
      match goIndex subj.Messages messageId with
      | some m => (st, .threads m.Threads)
      | none => (st, .panicked)
  | none => (st, .noSuchChannel)

/-- `postMessage` with the channel name taken verbatim (no lowercasing) and a
decoded body `{username, message}` (the decoder leaves `Threads` nil).  On
non-empty fields: create the channel's `subject` if absent (double-checked
under `globalMutex`, which sequentially is create-if-absent), then under the
channel's write lock set `id = len(Messages) + 1`, stamp it on the message and
append. -/
def postMessage (st : Registry) (channel username message : String) :
    Registry × PostMessageRes :=
  if username ≠ "" ∧ message ≠ "" then
    let subj := (st channel).getD ⟨[], ""⟩
    let id : Int := (subj.Messages.length : Int) + 1
    let mesg : msgPost := ⟨id, username, message, []⟩
    (setChannel st channel ⟨subj.Messages ++ [mesg], subj.title⟩, .ok id)
  else
    (st, .emptyField)

/-- `postThread` with the channel name taken verbatim (no lowercasing) and a
decoded body `{username, message}`.  On non-empty fields: missing channel is
"does not exist"; `message_id >= len(Messages)` is "messageId does not exist";
otherwise `Messages[message_id].Threads = append(..., mesg)` under the write
lock — which for a negative `message_id` panics at the indexing, before any
mutation. -/
def postThread (st : Registry) (channel : String) (messageId : Int)
    (username message : String) : Registry × PostThreadRes :=
  if username ≠ "" ∧ message ≠ "" then
    match st channel with
    | none => (st, .noSuchChannel)
    | some subj =>
      if messageId ≥ (subj.Messages.length : Int) then (st, .noMessageForId)
      else if messageId < 0 then (st, .panicked)
      else
        (setChannel st channel
          ⟨modifyAt subj.Messages messageId.toNat
             (fun m => { m with Threads := m.Threads ++ [⟨username, message⟩] }),
           subj.title⟩,
         .ok messageId)
  else
    (st, .emptyField)

/-- One dispatched request, with its already-decoded inputs. -/
inductive Op
  | post (channel username message : String)
  | thread (channel : String) (messageId : Int) (username message : String)
  | readMessages (channel : String) (lastId : Int)
  | readThreads (channel : String) (messageId : Int)

/-- State transition of one handler invocation (each handler's critical
section is atomic under its lock). -/
def applyOp (st : Registry) : Op → Registry
  | .post ch u m => (postMessage st ch u m).1
  | .thread ch mid u m => (postThread st ch mid u m).1
  | .readMessages ch lastId => (getMessage st ch lastId).1
  | .readThreads ch mid => (getThreads st ch mid).1

/-- Run a sequence of requests from the state `main` installs. -/
def run (ops : List Op) : Registry :=
  ops.foldl applyOp initialRegistry

/-- Message log of a channel, the empty log when the channel is absent. -/
def msgsOf (st : Registry) (channel : String) : List msgPost :=
  ((st channel).getD ⟨[], ""⟩).Messages

/-- Does this request succeed as an append of one message to `channel`?
`postMessage` succeeds exactly on non-empty username and message. -/
def isSuccessfulPost (channel : String) : Op → Bool
  | .post ch u m => ch = channel && u ≠ "" && m ≠ ""
  | _ => false

/-- Number of successful message appends to `channel` in a request sequence. -/
def countPosts (ops : List Op) (channel : String) : Nat :=
  ops.countP (isSuccessfulPost channel)

/-- The id sequence `1, 2, …, n`. -/
def seqIds (n : Nat) : List Int :=
  (List.range n).map (fun i : Nat => (i : Int) + 1)

/-- The messages carry the consecutive ids `b, b+1, …` in log order. -/
def idsFrom (b : Int) : List msgPost → Prop
  | [] => True
  | m :: rest => m.Id = b ∧ idsFrom (b + 1) rest

/-- Invariant: every channel's log carries the ids `1..N` in log order. -/
def idsContiguous (st : Registry) : Prop :=
  ∀ ch, (msgsOf st ch).map msgPost.Id = seqIds (msgsOf st ch).length

/-- Invariant: every channel present in the map has a non-empty log. -/
def channelsNonempty (st : Registry) : Prop :=
  ∀ ch subj, st ch = some subj → subj.Messages ≠ []

/-! ### Helper lemmas: state map and list utilities -/

theorem setChannel_self (st : Registry) (ch : String) (subj : subject) :
    setChannel st ch subj ch = some subj := by
  simp [setChannel]

theorem setChannel_ne (st : Registry) {ch ch' : String} (subj : subject)
    (h : ch' ≠ ch) : setChannel st ch subj ch' = st ch' := by
  simp [setChannel, h]

theorem msgsOf_setChannel_self (st : Registry) (ch : String) (subj : subject) :
    msgsOf (setChannel st ch subj) ch = subj.Messages := by
  simp [msgsOf, setChannel]

theorem msgsOf_setChannel_ne (st : Registry) {ch ch' : String} (subj : subject)
    (h : ch' ≠ ch) : msgsOf (setChannel st ch subj) ch' = msgsOf st ch' := by
  simp [msgsOf, setChannel, h]

theorem getMessage_fst (st : Registry) (ch : String) (i : Int) :
    (getMessage st ch i).1 = st := by
  unfold getMessage
  repeat' split
  all_goals rfl

theorem getThreads_fst (st : Registry) (ch : String) (i : Int) :
    (getThreads st ch i).1 = st := by
  unfold getThreads
  repeat' split
  all_goals rfl

theorem modifyAt_length {α : Type} (xs : List α) (i : Nat) (f : α → α) :
    (modifyAt xs i f).length = xs.length := by
  induction xs generalizing i with
  | nil => rfl
  | cons x rest ih =>
    cases i with
    | zero => rfl
    | succ j => simp [modifyAt, ih]

theorem modifyAt_map {α β : Type} (xs : List α) (i : Nat) (f : α → α) (g : α → β)
    (h : ∀ x, g (f x) = g x) : (modifyAt xs i f).map g = xs.map g := by
  induction xs generalizing i with
  | nil => rfl
  | cons x rest ih =>
    cases i with
    | zero => simp [modifyAt, h]
    | succ j => simp [modifyAt, ih]

theorem modifyAt_ne_nil {α : Type} (xs : List α) (i : Nat) (f : α → α)
    (h : xs ≠ []) : modifyAt xs i f ≠ [] := by
  intro hc
  apply h
  have := modifyAt_length xs i f
  rw [hc] at this
  exact List.length_eq_zero.mp this.symm

theorem modifyAt_get?_ne {α : Type} (xs : List α) (i j : Nat) (f : α → α)
    (h : j ≠ i) : (modifyAt xs i f).get? j = xs.get? j := by
  induction xs generalizing i j with
  | nil => rfl
  | cons x rest ih =>
    cases i with
    | zero =>
      cases j with
      | zero => exact absurd rfl h
      | succ j' => rfl
    | succ i' =>
      cases j with
      | zero => rfl
      | succ j' => simpa [modifyAt] using ih i' j' (by omega)

theorem modifyAt_get?_self {α : Type} (xs : List α) (i : Nat) (f : α → α) :
    (modifyAt xs i f).get? i = (xs.get? i).map f := by
  induction xs generalizing i with
  | nil => rfl
  | cons x rest ih =>
    cases i with
    | zero => rfl
    | succ j => simpa [modifyAt] using ih j

theorem seqIds_succ (n : Nat) : seqIds (n + 1) = seqIds n ++ [(n : Int) + 1] := by
  simp [seqIds, List.range_succ]

/-! ### Lemmas about contiguous id sequences -/

theorem seq_getD_id (msgs : List msgPost)
    (h : msgs.map msgPost.Id = seqIds msgs.length)
    (i : Nat) (hi : i < msgs.length) (dflt : msgPost) :
    (msgs.getD i dflt).Id = (i : Int) + 1 := by
  have h2 : (msgs.map msgPost.Id)[i]? = (seqIds msgs.length)[i]? := by rw [h]
  rw [List.getElem?_map] at h2
  have h4 : msgs[i]? = some (msgs.getD i dflt) := by
    rw [List.getD_eq_getElem?_getD, List.getElem?_eq_getElem hi]
    rfl
  rw [h4] at h2
  have h5 : (seqIds msgs.length)[i]? = some ((i : Int) + 1) := by
    rw [seqIds, List.getElem?_map, List.getElem?_range hi]
    rfl
  rw [h5] at h2
  exact Option.some.inj h2

theorem idsFrom_of_getD (msgs : List msgPost) :
    ∀ b : Int,
      (∀ i : Nat, i < msgs.length → ∀ dflt, (msgs.getD i dflt).Id = b + i) →
      idsFrom b msgs := by
  induction msgs with
  | nil => intro b _; trivial
  | cons m rest ih =>
    intro b h
    refine ⟨by simpa using h 0 (by simp) ⟨0, "", "", []⟩, ih (b + 1) ?_⟩
    intro i hi dflt
    have := h (i + 1) (by simpa using Nat.succ_lt_succ hi) dflt
    simp only [List.getD_cons_succ] at this
    rw [this]
    push_cast
    ring

theorem idsFrom_one_of_seq (msgs : List msgPost)
    (h : msgs.map msgPost.Id = seqIds msgs.length) : idsFrom 1 msgs := by
  apply idsFrom_of_getD
  intro i hi dflt
  rw [seq_getD_id msgs h i hi dflt]
  ring

theorem idsFrom_filter_all (msgs : List msgPost) :
    ∀ b a : Int, idsFrom b msgs → a < b →
      msgs.filter (fun m => decide (a < m.Id)) = msgs := by
  induction msgs with
  | nil => intro b a _ _; rfl
  | cons m rest ih =>
    intro b a hids hab
    obtain ⟨h1, h2⟩ := hids
    have hm : a < m.Id := h1 ▸ hab
    simp only [List.filter_cons, decide_eq_true_eq, hm, if_pos]
    rw [ih (b + 1) a h2 (by omega)]

theorem idsFrom_filter_eq_drop (msgs : List msgPost) :
    ∀ b a : Int, idsFrom b msgs → b ≤ a + 1 →
      msgs.filter (fun m => decide (a < m.Id)) = msgs.drop (a + 1 - b).toNat := by
  induction msgs with
  | nil => intro b a _ _; simp
  | cons m rest ih =>
    intro b a hids hba
    obtain ⟨h1, h2⟩ := hids
    by_cases hab : a < b
    · have hb : b = a + 1 := by omega
      have h0 : (a + 1 - b).toNat = 0 := by omega
      rw [h0, List.drop_zero]
      have hm : a < m.Id := h1 ▸ hab
      simp only [List.filter_cons, decide_eq_true_eq, hm, if_pos]
      rw [idsFrom_filter_all rest (b + 1) a h2 (by omega)]
    · have hm : ¬ a < m.Id := h1 ▸ hab
      have hstep : (a + 1 - b).toNat = (a + 1 - (b + 1)).toNat + 1 := by omega
      simp only [List.filter_cons, decide_eq_true_eq, hm, if_neg, if_false]
      rw [ih (b + 1) a h2 (by omega), hstep, List.drop_succ_cons]

/-! ### Characterisation of the write handlers, branch by branch -/

theorem msgsOf_eq_of_some {st : Registry} {ch : String} {subj : subject}
    (h : st ch = some subj) : msgsOf st ch = subj.Messages := by
  simp [msgsOf, h]

theorem postMessage_empty (st : Registry) (ch u m : String)
    (hc : ¬ (u ≠ "" ∧ m ≠ "")) : postMessage st ch u m = (st, .emptyField) := by
  simp only [postMessage, if_neg hc]

theorem postMessage_ok (st : Registry) (ch u m : String)
    (hu : u ≠ "") (hm : m ≠ "") :
    postMessage st ch u m =
      (setChannel st ch
        ⟨msgsOf st ch ++ [⟨((msgsOf st ch).length : Int) + 1, u, m, []⟩],
         ((st ch).getD ⟨[], ""⟩).title⟩,
       .ok (((msgsOf st ch).length : Int) + 1)) := by
  simp only [postMessage, if_pos (And.intro hu hm), msgsOf]

theorem postThread_empty (st : Registry) (ch : String) (mid : Int) (u m : String)
    (hc : ¬ (u ≠ "" ∧ m ≠ "")) : postThread st ch mid u m = (st, .emptyField) := by
  simp only [postThread, if_neg hc]

theorem postThread_noChannel (st : Registry) (ch : String) (mid : Int)
    (u m : String) (hu : u ≠ "") (hm : m ≠ "") (hch : st ch = none) :
    postThread st ch mid u m = (st, .noSuchChannel) := by
  simp only [postThread, if_pos (And.intro hu hm), hch]

theorem postThread_noMessage (st : Registry) (ch : String) (mid : Int)
    (u m : String) (subj : subject) (hu : u ≠ "") (hm : m ≠ "")
    (hch : st ch = some subj) (hge : mid ≥ (subj.Messages.length : Int)) :
    postThread st ch mid u m = (st, .noMessageForId) := by
  simp only [postThread, if_pos (And.intro hu hm), hch, if_pos hge]

theorem postThread_panicked (st : Registry) (ch : String) (mid : Int)
    (u m : String) (subj : subject) (hu : u ≠ "") (hm : m ≠ "")
    (hch : st ch = some subj) (hneg : mid < 0) :
    postThread st ch mid u m = (st, .panicked) := by
  have hge : ¬ mid ≥ (subj.Messages.length : Int) := by
    have : (0 : Int) ≤ (subj.Messages.length : Int) := Int.ofNat_nonneg _
    omega
  simp only [postThread, if_pos (And.intro hu hm), hch, if_neg hge, if_pos hneg]

theorem postThread_appends (st : Registry) (ch : String) (mid : Int)
    (u m : String) (subj : subject) (hu : u ≠ "") (hm : m ≠ "")
    (hch : st ch = some subj) (h0 : 0 ≤ mid)
    (hlt : mid < (subj.Messages.length : Int)) :
    postThread st ch mid u m =
      (setChannel st ch
        ⟨modifyAt subj.Messages mid.toNat
           (fun msg => { msg with Threads := msg.Threads ++ [⟨u, m⟩] }),
         subj.title⟩,
       .ok mid) := by
  have hge : ¬ mid ≥ (subj.Messages.length : Int) := by omega
  have hneg : ¬ mid < 0 := by omega
  simp only [postThread, if_pos (And.intro hu hm), hch, if_neg hge, if_neg hneg]

/-! ### Invariants preserved by every request -/

theorem postMessage_ok_fst (st : Registry) (ch u m : String)
    (hu : u ≠ "") (hm : m ≠ "") :
    (postMessage st ch u m).1 =
      setChannel st ch
        ⟨msgsOf st ch ++ [⟨((msgsOf st ch).length : Int) + 1, u, m, []⟩],
         ((st ch).getD ⟨[], ""⟩).title⟩ := by
  rw [postMessage_ok st ch u m hu hm]

theorem postThread_appends_fst (st : Registry) (ch : String) (mid : Int)
    (u m : String) (subj : subject) (hu : u ≠ "") (hm : m ≠ "")
    (hch : st ch = some subj) (h0 : 0 ≤ mid)
    (hlt : mid < (subj.Messages.length : Int)) :
    (postThread st ch mid u m).1 =
      setChannel st ch
        ⟨modifyAt subj.Messages mid.toNat
           (fun msg => { msg with Threads := msg.Threads ++ [⟨u, m⟩] }),
         subj.title⟩ := by
  rw [postThread_appends st ch mid u m subj hu hm hch h0 hlt]

theorem idsContiguous_applyOp (st : Registry) (op : Op)
    (h : idsContiguous st) : idsContiguous (applyOp st op) := by
  cases op with
  | post ch u m =>
    by_cases hc : u ≠ "" ∧ m ≠ ""
    · intro ch'
      rw [applyOp, postMessage_ok_fst st ch u m hc.1 hc.2]
      by_cases he : ch' = ch
      · subst he
        rw [msgsOf_setChannel_self]
        simp only [List.map_append, h ch', List.length_append, List.map_cons,
          List.map_nil, List.length_cons, List.length_nil]
        rw [seqIds_succ]
      · rw [msgsOf_setChannel_ne st _ he]
        exact h ch'
    · rw [applyOp, postMessage_empty st ch u m hc]
      exact h
  | thread ch mid u m =>
    by_cases hc : u ≠ "" ∧ m ≠ ""
    · cases hch : st ch with
      | none =>
        rw [applyOp, postThread_noChannel st ch mid u m hc.1 hc.2 hch]
        exact h
      | some subj =>
        by_cases hge : mid ≥ (subj.Messages.length : Int)
        · rw [applyOp, postThread_noMessage st ch mid u m subj hc.1 hc.2 hch hge]
          exact h
        · by_cases hneg : mid < 0
          · rw [applyOp, postThread_panicked st ch mid u m subj hc.1 hc.2 hch hneg]
            exact h
          · intro ch'
            rw [applyOp,
              postThread_appends_fst st ch mid u m subj hc.1 hc.2 hch (by omega)
                (by omega)]
            by_cases he : ch' = ch
            · subst he
              rw [msgsOf_setChannel_self]
              have hmap := modifyAt_map subj.Messages mid.toNat
                (fun msg => { msg with Threads := msg.Threads ++ [⟨u, m⟩] })
                msgPost.Id (fun x => rfl)
              rw [hmap, modifyAt_length, ← msgsOf_eq_of_some hch]
              exact h ch'
            · rw [msgsOf_setChannel_ne st _ he]
              exact h ch'
    · rw [applyOp, postThread_empty st ch mid u m hc]
      exact h
  | readMessages ch lastId =>
    rw [applyOp, getMessage_fst]
    exact h
  | readThreads ch mid =>
    rw [applyOp, getThreads_fst]
    exact h

theorem channelsNonempty_applyOp (st : Registry) (op : Op)
    (h : channelsNonempty st) : channelsNonempty (applyOp st op) := by
  cases op with
  | post ch u m =>
    by_cases hc : u ≠ "" ∧ m ≠ ""
    · intro ch' subj' hs
      rw [applyOp, postMessage_ok_fst st ch u m hc.1 hc.2] at hs
      by_cases he : ch' = ch
      · subst he
        rw [setChannel_self] at hs
        cases hs
        simp
      · rw [setChannel_ne st _ he] at hs
        exact h ch' subj' hs
    · rw [applyOp, postMessage_empty st ch u m hc]
      exact h
  | thread ch mid u m =>
    by_cases hc : u ≠ "" ∧ m ≠ ""
    · cases hch : st ch with
      | none =>
        rw [applyOp, postThread_noChannel st ch mid u m hc.1 hc.2 hch]
        exact h
      | some subj =>
        by_cases hge : mid ≥ (subj.Messages.length : Int)
        · rw [applyOp, postThread_noMessage st ch mid u m subj hc.1 hc.2 hch hge]
          exact h
        · by_cases hneg : mid < 0
          · rw [applyOp, postThread_panicked st ch mid u m subj hc.1 hc.2 hch hneg]
            exact h
          · intro ch' subj' hs
            rw [applyOp,
              postThread_appends_fst st ch mid u m subj hc.1 hc.2 hch (by omega)
                (by omega)] at hs
            by_cases he : ch' = ch
            · subst he
              rw [setChannel_self] at hs
              cases hs
              exact modifyAt_ne_nil _ _ _ (h _ subj hch)
            · rw [setChannel_ne st _ he] at hs
              exact h ch' subj' hs
    · rw [applyOp, postThread_empty st ch mid u m hc]
      exact h
  | readMessages ch lastId =>
    rw [applyOp, getMessage_fst]
    exact h
  | readThreads ch mid =>
    rw [applyOp, getThreads_fst]
    exact h

theorem idsContiguous_foldl (ops : List Op) :
    ∀ st : Registry, idsContiguous st → idsContiguous (ops.foldl applyOp st) := by
  induction ops with
  | nil => intro st hst; exact hst
  | cons op rest ih =>
    intro st hst
    exact ih _ (idsContiguous_applyOp st op hst)

theorem channelsNonempty_foldl (ops : List Op) :
    ∀ st : Registry,
      channelsNonempty st → channelsNonempty (ops.foldl applyOp st) := by
  induction ops with
  | nil => intro st hst; exact hst
  | cons op rest ih =>
    intro st hst
    exact ih _ (channelsNonempty_applyOp st op hst)

theorem idsContiguous_run (ops : List Op) : idsContiguous (run ops) := by
  rw [run]
  apply idsContiguous_foldl
  intro ch
  simp [msgsOf, initialRegistry, seqIds]

theorem channelsNonempty_run (ops : List Op) : channelsNonempty (run ops) := by
  rw [run]
  apply channelsNonempty_foldl
  intro ch subj hs
  simp [initialRegistry] at hs

/-! ### Log length counts the successful appends -/

theorem length_msgsOf_postThread (st : Registry) (ch : String) (mid : Int)
    (u m : String) (ch' : String) :
    (msgsOf (postThread st ch mid u m).1 ch').length = (msgsOf st ch').length := by
  by_cases hc : u ≠ "" ∧ m ≠ ""
  · cases hch : st ch with
    | none => rw [postThread_noChannel st ch mid u m hc.1 hc.2 hch]
    | some subj =>
      by_cases hge : mid ≥ (subj.Messages.length : Int)
      · rw [postThread_noMessage st ch mid u m subj hc.1 hc.2 hch hge]
      · by_cases hneg : mid < 0
        · rw [postThread_panicked st ch mid u m subj hc.1 hc.2 hch hneg]
        · rw [postThread_appends_fst st ch mid u m subj hc.1 hc.2 hch (by omega)
            (by omega)]
          by_cases he : ch' = ch
          · subst he
            rw [msgsOf_setChannel_self, modifyAt_length,
              ← msgsOf_eq_of_some hch]
          · rw [msgsOf_setChannel_ne st _ he]
  · rw [postThread_empty st ch mid u m hc]

theorem length_msgsOf_applyOp (st : Registry) (op : Op) (ch : String) :
    (msgsOf (applyOp st op) ch).length =
      (msgsOf st ch).length + (if isSuccessfulPost ch op then 1 else 0) := by
  cases op with
  | post ch' u m =>
    by_cases hc : u ≠ "" ∧ m ≠ ""
    · rw [applyOp, postMessage_ok_fst st ch' u m hc.1 hc.2]
      by_cases he : ch = ch'
      · subst he
        rw [msgsOf_setChannel_self]
        have hp : isSuccessfulPost ch (Op.post ch u m) = true := by
          simp [isSuccessfulPost, hc.1, hc.2]
        rw [hp]
        simp
      · rw [msgsOf_setChannel_ne st _ he]
        have hp : isSuccessfulPost ch (Op.post ch' u m) = false := by
          simp [isSuccessfulPost]
          intro hcc
          exact absurd hcc.symm he
        rw [hp]
        simp
    · rw [applyOp, postMessage_empty st ch' u m hc]
      have hp : isSuccessfulPost ch (Op.post ch' u m) = false := by
        rw [not_and_or, not_not, not_not] at hc
        cases hc with
        | inl h1 => simp [isSuccessfulPost, h1]
        | inr h1 => simp [isSuccessfulPost, h1]
      rw [hp]
      simp
  | thread ch' mid u m =>
    rw [applyOp, length_msgsOf_postThread st ch' mid u m ch]
    simp [isSuccessfulPost]
  | readMessages ch' lastId =>
    rw [applyOp, getMessage_fst]
    simp [isSuccessfulPost]
  | readThreads ch' mid =>
    rw [applyOp, getThreads_fst]
    simp [isSuccessfulPost]

theorem length_msgsOf_foldl (ops : List Op) :
    ∀ (st : Registry) (ch : String),
      (msgsOf (ops.foldl applyOp st) ch).length =
        (msgsOf st ch).length + countPosts ops ch := by
  induction ops with
  | nil =>
    intro st ch
    simp [countPosts]
  | cons op rest ih =>
    intro st ch
    rw [List.foldl_cons, ih (applyOp st op) ch, length_msgsOf_applyOp]
    simp only [countPosts, List.countP_cons]
    cases hb : isSuccessfulPost ch op <;> simp [hb]
    omega

/-! ### Claim theorems -/

/-- C1: after any request sequence with N successful message appends to a
channel (interleaved arbitrarily with reads and thread appends), the ids of
that channel's log are exactly the contiguous sequence `1..N` in log order —
no gaps, duplicates, or reuse — in every reachable state. -/
theorem run_ids_contiguous (ops : List Op) (ch : String) :
    (msgsOf (run ops) ch).map msgPost.Id = seqIds (countPosts ops ch) := by
  have h1 := idsContiguous_run ops ch
  have h2 : (msgsOf (run ops) ch).length = countPosts ops ch := by
    rw [run, length_msgsOf_foldl ops initialRegistry ch]
    simp [msgsOf, initialRegistry]
  rw [h2] at h1
  exact h1

/-- C2: for every channel state and non-empty author/body, `postMessage`
appends exactly one message with `id = count_before + 1`, the given author
and body and an empty thread sequence, at the end of the channel's log,
leaves earlier messages and other channels unchanged, and returns the id. -/
theorem postMessage_appends_one (st : Registry) (ch u m : String)
    (hu : u ≠ "") (hm : m ≠ "") :
    (postMessage st ch u m).2 = .ok (((msgsOf st ch).length : Int) + 1) ∧
    (postMessage st ch u m).1 ch =
      some ⟨msgsOf st ch ++ [⟨((msgsOf st ch).length : Int) + 1, u, m, []⟩],
            ((st ch).getD ⟨[], ""⟩).title⟩ ∧
    (∀ ch', ch' ≠ ch → (postMessage st ch u m).1 ch' = st ch') := by
  refine ⟨?_, ?_, ?_⟩
  · rw [postMessage_ok st ch u m hu hm]
  · rw [postMessage_ok_fst st ch u m hu hm, setChannel_self]
  · intro ch' h
    rw [postMessage_ok_fst st ch u m hu hm, setChannel_ne st _ h]

/-- Witness for C2 at a concrete input: first post to channel `x`. -/
theorem postMessage_appends_one_witness :
    (postMessage initialRegistry "x" "a" "hi").2 = .ok 1 ∧
    (postMessage initialRegistry "x" "a" "hi").1 "x" =
      some ⟨[⟨1, "a", "hi", []⟩], ""⟩ ∧
    (postMessage initialRegistry "x" "a" "hi").1 "y" = none := by
  have h := postMessage_appends_one initialRegistry "x" "a" "hi"
    (by decide) (by decide)
  exact ⟨h.1, h.2.1, h.2.2 "y" (by decide)⟩

/-- C10: in every reachable state, a channel present in the map holds at
least one message (creation happens only inside a validated `postMessage`,
which immediately appends). -/
theorem run_channel_has_message (ops : List Op) (ch : String) (subj : subject)
    (h : run ops ch = some subj) : 1 ≤ subj.Messages.length :=
  List.length_pos.mpr (channelsNonempty_run ops ch subj h)

/-- Witness for C10 at a concrete input: one post creates channel `x` with
one message. -/
theorem run_channel_has_message_witness :
    run [Op.post "x" "a" "hi"] "x" = some ⟨[⟨1, "a", "hi", []⟩], ""⟩ ∧
    1 ≤ (subject.mk [msgPost.mk 1 "a" "hi" []] "").Messages.length :=
  ⟨by decide,
   run_channel_has_message [Op.post "x" "a" "hi"] "x"
     ⟨[⟨1, "a", "hi", []⟩], ""⟩ (by decide)⟩

/-! ### Characterisation of the read handlers, branch by branch -/

theorem getMessage_noChannel (st : Registry) (ch : String) (i : Int)
    (hch : st (goToLower ch) = none) :
    getMessage st ch i = (st, .noSuchChannel) := by
  simp only [getMessage, hch]

theorem getMessage_noNew (st : Registry) (ch : String) (subj : subject) (i : Int)
    (hch : st (goToLower ch) = some subj)
    (hge : i ≥ (subj.Messages.length : Int)) :
    getMessage st ch i = (st, .noNewMessage) := by
  simp only [getMessage, hch, if_pos hge]

theorem getMessage_suffix (st : Registry) (ch : String) (subj : subject) (i : Int)
    (hch : st (goToLower ch) = some subj) (h0 : 0 ≤ i)
    (hlt : i < (subj.Messages.length : Int)) :
    getMessage st ch i = (st, .messages (subj.Messages.drop i.toNat)) := by
  have hns : goSuffix subj.Messages i = some (subj.Messages.drop i.toNat) := by
    simp only [goSuffix, if_pos (And.intro h0 (by omega : i ≤ (subj.Messages.length : Int)))]
  simp only [getMessage, hch,
    if_neg (by omega : ¬ i ≥ (subj.Messages.length : Int)), hns]

theorem getMessage_panicked (st : Registry) (ch : String) (subj : subject) (i : Int)
    (hch : st (goToLower ch) = some subj) (hneg : i < 0) :
    getMessage st ch i = (st, .panicked) := by
  have hns : goSuffix subj.Messages i = none := by
    simp only [goSuffix]
    rw [if_neg]
    intro hcon
    omega
  have hlen : ¬ i ≥ (subj.Messages.length : Int) := by
    have : (0 : Int) ≤ (subj.Messages.length : Int) := Int.ofNat_nonneg _
    omega
  simp only [getMessage, hch, if_neg hlen, hns]

theorem getThreads_noChannel (st : Registry) (ch : String) (i : Int)
    (hch : st (goToLower ch) = none) :
    getThreads st ch i = (st, .noSuchChannel) := by
  simp only [getThreads, hch]

theorem getThreads_noMessage (st : Registry) (ch : String) (subj : subject) (i : Int)
    (hch : st (goToLower ch) = some subj)
    (hge : i ≥ (subj.Messages.length : Int)) :
    getThreads st ch i = (st, .noMessageForId) := by
  simp only [getThreads, hch, if_pos hge]

theorem getThreads_panicked (st : Registry) (ch : String) (subj : subject) (i : Int)
    (hch : st (goToLower ch) = some subj) (hneg : i < 0) :
    getThreads st ch i = (st, .panicked) := by
  have hni : goIndex subj.Messages i = none := by
    simp only [goIndex]
    rw [if_neg]
    intro hcon
    omega
  have hlen : ¬ i ≥ (subj.Messages.length : Int) := by
    have : (0 : Int) ≤ (subj.Messages.length : Int) := Int.ofNat_nonneg _
    omega
  simp only [getThreads, hch, if_neg hlen, hni]

theorem getThreads_found (st : Registry) (ch : String) (subj : subject) (i : Int)
    (hch : st (goToLower ch) = some subj) (h0 : 0 ≤ i)
    (hlt : i < (subj.Messages.length : Int)) :
    getThreads st ch i =
      (st, .threads ((subj.Messages.getD i.toNat ⟨0, "", "", []⟩).Threads)) := by
  have hb : i.toNat < subj.Messages.length := by omega
  have hni : goIndex subj.Messages i =
      some (subj.Messages.getD i.toNat ⟨0, "", "", []⟩) := by
    simp only [goIndex, if_pos (And.intro h0 hlt)]
    rw [List.get?_eq_getElem?, List.getD_eq_getElem?_getD,
      List.getElem?_eq_getElem hb]
    rfl
  simp only [getThreads, hch,
    if_neg (by omega : ¬ i ≥ (subj.Messages.length : Int)), hni]

/-- C3: for an existing channel (ids contiguous, as in every reachable state)
and `0 ≤ afterId < count`, `getMessage` returns exactly the messages with
`id > afterId` in ascending id order — the suffix of the log from index
`afterId` — with `afterId = 0` returning the full log; and it signals the
"nothing new" condition exactly when `afterId ≥ count`. -/
theorem getMessage_since_spec (st : Registry) (ch : String) (subj : subject)
    (hch : st (goToLower ch) = some subj)
    (hids : subj.Messages.map msgPost.Id = seqIds subj.Messages.length)
    (afterId : Int) :
    ((getMessage st ch afterId).2 = .noNewMessage ↔
      (subj.Messages.length : Int) ≤ afterId) ∧
    (0 ≤ afterId → afterId < (subj.Messages.length : Int) →
      (getMessage st ch afterId).2 =
        .messages (subj.Messages.drop afterId.toNat) ∧
      subj.Messages.drop afterId.toNat =
        subj.Messages.filter (fun msg => decide (afterId < msg.Id))) ∧
    (0 < subj.Messages.length →
      (getMessage st ch 0).2 = .messages subj.Messages) := by
  refine ⟨?_, ?_, ?_⟩
  · by_cases hge : afterId ≥ (subj.Messages.length : Int)
    · rw [getMessage_noNew st ch subj afterId hch hge]
      exact ⟨fun _ => hge, fun _ => rfl⟩
    · by_cases h0 : 0 ≤ afterId
      · rw [getMessage_suffix st ch subj afterId hch h0 (by omega)]
        constructor
        · intro hcon
          exact absurd hcon (by simp)
        · intro hcon
          omega
      · rw [getMessage_panicked st ch subj afterId hch (by omega)]
        constructor
        · intro hcon
          exact absurd hcon (by simp)
        · intro hcon
          omega
  · intro h0 hlt
    rw [getMessage_suffix st ch subj afterId hch h0 hlt]
    refine ⟨rfl, ?_⟩
    have hfd := idsFrom_filter_eq_drop subj.Messages 1 afterId
      (idsFrom_one_of_seq subj.Messages hids) (by omega)
    have he : afterId + 1 - 1 = afterId := by ring
    rw [he] at hfd
    exact hfd.symm
  · intro hpos
    rw [getMessage_suffix st ch subj 0 hch (le_refl 0) (by exact_mod_cast hpos)]
    simp

/-- Witness for C3 at a concrete input: two posts to `x`, then reads with
`afterId = 1` and `afterId = 0`. -/
theorem getMessage_since_spec_witness :
    (getMessage (run [Op.post "x" "a" "hi", Op.post "x" "b" "yo"]) "x" 1).2 =
      .messages [⟨2, "b", "yo", []⟩] ∧
    (getMessage (run [Op.post "x" "a" "hi", Op.post "x" "b" "yo"]) "x" 0).2 =
      .messages [⟨1, "a", "hi", []⟩, ⟨2, "b", "yo", []⟩] := by
  have h := getMessage_since_spec
    (run [Op.post "x" "a" "hi", Op.post "x" "b" "yo"]) "x"
    ⟨[⟨1, "a", "hi", []⟩, ⟨2, "b", "yo", []⟩], ""⟩
    (by decide) (by decide) 1
  exact ⟨(h.2.1 (by decide) (by decide)).1, h.2.2 (by decide)⟩

/-- C4 counterexample: in the state with exactly one message (id 1) in
channel `x`, `messageId = 1` lies in `[1, count]`, yet `getThreads` answers
"no message for the provided id" instead of that message's (empty) thread
sequence: the code compares and indexes the 1-based id directly against the
0-based log. -/
theorem getThreads_claim_cex :
    run [Op.post "x" "a" "hi"] "x" = some ⟨[⟨1, "a", "hi", []⟩], ""⟩ ∧
    (getThreads (run [Op.post "x" "a" "hi"]) "x" 1).2 ≠
      GetThreadsRes.threads [] ∧
    (getThreads (run [Op.post "x" "a" "hi"]) "x" 1).2 = .noMessageForId :=
  ⟨by decide, by decide, by decide⟩

/-- C4 amended: for an existing channel (ids contiguous), `getThreads` fails
with the out-of-range condition exactly when `messageId ≥ count`; for
`0 ≤ messageId < count` it returns the thread sequence of the message at log
index `messageId`, i.e. the message whose id equals `messageId + 1`; and a
negative `messageId` is not rejected but panics at the indexing. -/
theorem getThreads_amended_spec (st : Registry) (ch : String) (subj : subject)
    (hch : st (goToLower ch) = some subj)
    (hids : subj.Messages.map msgPost.Id = seqIds subj.Messages.length)
    (mid : Int) :
    ((getThreads st ch mid).2 = .noMessageForId ↔
      (subj.Messages.length : Int) ≤ mid) ∧
    (mid < 0 → (getThreads st ch mid).2 = .panicked) ∧
    (0 ≤ mid → mid < (subj.Messages.length : Int) →
      (getThreads st ch mid).2 =
        .threads ((subj.Messages.getD mid.toNat ⟨0, "", "", []⟩).Threads) ∧
      (subj.Messages.getD mid.toNat ⟨0, "", "", []⟩).Id = mid + 1) := by
  refine ⟨?_, ?_, ?_⟩
  · by_cases hge : mid ≥ (subj.Messages.length : Int)
    · rw [getThreads_noMessage st ch subj mid hch hge]
      exact ⟨fun _ => hge, fun _ => rfl⟩
    · by_cases h0 : 0 ≤ mid
      · rw [getThreads_found st ch subj mid hch h0 (by omega)]
        constructor
        · intro hcon
          exact absurd hcon (by simp)
        · intro hcon
          omega
      · rw [getThreads_panicked st ch subj mid hch (by omega)]
        constructor
        · intro hcon
          exact absurd hcon (by simp)
        · intro hcon
          omega
  · intro hneg
    rw [getThreads_panicked st ch subj mid hch hneg]
  · intro h0 hlt
    refine ⟨?_, ?_⟩
    · rw [getThreads_found st ch subj mid hch h0 hlt]
    · have hb : mid.toNat < subj.Messages.length := by omega
      have := seq_getD_id subj.Messages hids mid.toNat hb ⟨0, "", "", []⟩
      rw [this, Int.toNat_of_nonneg h0]

/-- Witness for the amended C4 at a concrete input: one message in `x`;
`messageId = 1` is rejected, `messageId = 0` returns the threads of the
message with id `1`. -/
theorem getThreads_amended_spec_witness :
    ((getThreads (run [Op.post "x" "a" "hi"]) "x" 1).2 = .noMessageForId ↔
      (((1 : Nat) : Int) ≤ 1)) ∧
    (getThreads (run [Op.post "x" "a" "hi"]) "x" 0).2 = .threads [] ∧
    (msgPost.mk 1 "a" "hi" []).Id = 0 + 1 := by
  have h1 := getThreads_amended_spec (run [Op.post "x" "a" "hi"]) "x"
    ⟨[⟨1, "a", "hi", []⟩], ""⟩ (by decide) (by decide) 1
  have h0 := getThreads_amended_spec (run [Op.post "x" "a" "hi"]) "x"
    ⟨[⟨1, "a", "hi", []⟩], ""⟩ (by decide) (by decide) 0
  exact ⟨h1.1, (h0.2.2 (by decide) (by decide)).1, (h0.2.2 (by decide) (by decide)).2⟩

/-- C5 counterexample: in the state with exactly one message (id 1) in
channel `x`, `messageId = 1` addresses an existing message, yet `postThread`
rejects it with "messageId does not exist" and leaves the state unchanged,
instead of appending to message 1's thread sequence. -/
theorem postThread_claim_cex :
    run [Op.post "x" "a" "hi"] "x" = some ⟨[⟨1, "a", "hi", []⟩], ""⟩ ∧
    (postThread (run [Op.post "x" "a" "hi"]) "x" 1 "c" "re").1 =
      run [Op.post "x" "a" "hi"] ∧
    (postThread (run [Op.post "x" "a" "hi"]) "x" 1 "c" "re").2 =
      .noMessageForId :=
  ⟨by decide, rfl, by decide⟩

/-- C5 amended: with non-empty author/body, `postThread` fails not-found when
the channel is absent (verbatim name) or when `messageId ≥ count`, leaving the
state unchanged; a negative `messageId` panics at the indexing (state still
unchanged); and for `0 ≤ messageId < count` it appends exactly one `Thread`
at the end of the thread sequence of the message at log index `messageId`
(the message whose id is `messageId + 1`), leaving the message count, all
other messages and all other channels unchanged, echoing `messageId`. -/
theorem postThread_amended_spec (st : Registry) (ch u m : String) (mid : Int)
    (hu : u ≠ "") (hm : m ≠ "") :
    (st ch = none → postThread st ch mid u m = (st, .noSuchChannel)) ∧
    (∀ subj : subject, st ch = some subj →
      ((subj.Messages.length : Int) ≤ mid →
        postThread st ch mid u m = (st, .noMessageForId)) ∧
      (mid < 0 → postThread st ch mid u m = (st, .panicked)) ∧
      (0 ≤ mid → mid < (subj.Messages.length : Int) →
        (postThread st ch mid u m).2 = .ok mid ∧
        (postThread st ch mid u m).1 ch =
          some ⟨modifyAt subj.Messages mid.toNat
                  (fun msg => { msg with Threads := msg.Threads ++ [⟨u, m⟩] }),
                subj.title⟩ ∧
        (modifyAt subj.Messages mid.toNat
            (fun msg => { msg with Threads := msg.Threads ++ [⟨u, m⟩] })).length =
          subj.Messages.length ∧
        (∀ j : Nat, j ≠ mid.toNat →
          (modifyAt subj.Messages mid.toNat
              (fun msg => { msg with Threads := msg.Threads ++ [⟨u, m⟩] })).get? j =
            subj.Messages.get? j) ∧
        (∀ ch', ch' ≠ ch → (postThread st ch mid u m).1 ch' = st ch'))) := by
  refine ⟨fun hch => postThread_noChannel st ch mid u m hu hm hch, ?_⟩
  intro subj hch
  refine ⟨?_, ?_, ?_⟩
  · intro hge
    exact postThread_noMessage st ch mid u m subj hu hm hch (by omega)
  · intro hneg
    exact postThread_panicked st ch mid u m subj hu hm hch hneg
  · intro h0 hlt
    refine ⟨?_, ?_, modifyAt_length _ _ _, ?_, ?_⟩
    · rw [postThread_appends st ch mid u m subj hu hm hch h0 hlt]
    · rw [postThread_appends_fst st ch mid u m subj hu hm hch h0 hlt,
        setChannel_self]
    · intro j hj
      exact modifyAt_get?_ne subj.Messages mid.toNat j _ hj
    · intro ch' hne
      rw [postThread_appends_fst st ch mid u m subj hu hm hch h0 hlt,
        setChannel_ne st _ hne]

/-- Witness for the amended C5 at concrete inputs: absent channel `y`
rejected; in channel `x` with one message, `messageId = 0` appends the thread
to the message with id `1`, preserving count and other channels. -/
theorem postThread_amended_spec_witness :
    postThread (run [Op.post "x" "a" "hi"]) "y" 0 "c" "re" =
      (run [Op.post "x" "a" "hi"], .noSuchChannel) ∧
    (postThread (run [Op.post "x" "a" "hi"]) "x" 0 "c" "re").2 = .ok 0 ∧
    (postThread (run [Op.post "x" "a" "hi"]) "x" 0 "c" "re").1 "x" =
      some ⟨[⟨1, "a", "hi", [⟨"c", "re"⟩]⟩], ""⟩ ∧
    (postThread (run [Op.post "x" "a" "hi"]) "x" 0 "c" "re").1 "y" = none := by
  have habs := postThread_amended_spec (run [Op.post "x" "a" "hi"]) "y" "c" "re" 0
    (by decide) (by decide)
  have hok := postThread_amended_spec (run [Op.post "x" "a" "hi"]) "x" "c" "re" 0
    (by decide) (by decide)
  have h2 := (hok.2 ⟨[⟨1, "a", "hi", []⟩], ""⟩ (by decide)).2.2
    (by decide) (by decide)
  exact ⟨habs.1 (by decide), h2.1, h2.2.1, h2.2.2.2.2 "y" (by decide)⟩

/-- C6 exhibit (code bug): on the existing channel `x` holding one message, a
negative `message_id` (a well-formed integer the transport accepts) passes the
`id >= len(Messages)` check and reaches `Messages[id]`, which panics —
`getThreads` and `postThread` do not return a value-or-failure result there. -/
theorem negative_message_id_panics :
    (getThreads (run [Op.post "x" "a" "hi"]) "x" (-1)).2 = .panicked ∧
    (postThread (run [Op.post "x" "a" "hi"]) "x" (-1) "c" "re").2 = .panicked :=
  ⟨by decide, by decide⟩

/-- C8: the read handlers never write the registry — for every state they
return it unchanged — and on a channel that was never written to (lowercased
lookup key absent) they report "no such channel" rather than creating it. -/
theorem reads_do_not_create (st : Registry) (ch : String) (lastId mid : Int)
    (habs : st (goToLower ch) = none) :
    (∀ (st' : Registry) (ch' : String) (i : Int), (getMessage st' ch' i).1 = st') ∧
    (∀ (st' : Registry) (ch' : String) (i : Int), (getThreads st' ch' i).1 = st') ∧
    (getMessage st ch lastId).2 = .noSuchChannel ∧
    (getThreads st ch mid).2 = .noSuchChannel := by
  refine ⟨fun st' ch' i => getMessage_fst st' ch' i,
    fun st' ch' i => getThreads_fst st' ch' i, ?_, ?_⟩
  · rw [getMessage_noChannel st ch lastId habs]
  · rw [getThreads_noChannel st ch mid habs]

/-- Witness for C8 at a concrete input: reads of the never-written channel
`x` leave the empty registry unchanged and answer "no such channel". -/
theorem reads_do_not_create_witness :
    (getMessage initialRegistry "x" 0).1 = initialRegistry ∧
    (getThreads initialRegistry "x" 0).1 = initialRegistry ∧
    (getMessage initialRegistry "x" 0).2 = .noSuchChannel ∧
    (getThreads initialRegistry "x" 0).2 = .noSuchChannel := by
  have h := reads_do_not_create initialRegistry "x" 0 0 (by decide)
  exact ⟨h.1 initialRegistry "x" 0, h.2.1 initialRegistry "x" 0,
    h.2.2.1, h.2.2.2⟩

/-! ### Case asymmetry between read and write paths -/

theorem map_eq_self_forall {α : Type} (l : List α) (f : α → α) :
    l.map f = l → ∀ c ∈ l, f c = c := by
  induction l with
  | nil =>
    intro _ c hc
    simp at hc
  | cons x rest ih =>
    intro h c hc
    simp only [List.map_cons] at h
    injection h with h1 h2
    rcases List.mem_cons.mp hc with hx | hr
    · rw [hx, h1]
    · exact ih h2 c hr

theorem toLower_toNat_of_upper (c : Char) (h1 : 65 ≤ c.toNat) (h2 : c.toNat ≤ 90) :
    (Char.toLower c).toNat = c.toNat + 32 := by
  rw [Char.toLower]
  simp only [ge_iff_le, if_pos (And.intro h1 h2)]
  rw [Char.ofNat, dif_pos (Or.inl (by omega))]
  simp [Char.ofNatAux, Char.toNat, UInt32.ofNat']
  rfl

theorem toLower_ne_of_upper (c : Char) (h1 : 65 ≤ c.toNat) (h2 : c.toNat ≤ 90) :
    Char.toLower c ≠ c := by
  intro heq
  have h3 := toLower_toNat_of_upper c h1 h2
  rw [heq] at h3
  omega

theorem goToLower_ne_of_upper (ch : String)
    (hup : ∃ c ∈ ch.data, 65 ≤ c.toNat ∧ c.toNat ≤ 90) : goToLower ch ≠ ch := by
  intro heq
  obtain ⟨c, hc, hc1, hc2⟩ := hup
  have hdata : (goToLower ch).data = ch.data := by rw [heq]
  rw [goToLower] at hdata
  exact toLower_ne_of_upper c hc1 hc2
    (map_eq_self_forall ch.data Char.toLower hdata c hc)

/-- C7: writes store under the verbatim channel name while reads look up the
lowercased name — so a post under a name containing an uppercase letter lands
under the verbatim key and a read with that same name reports "no such
channel" (when the lowercased key was never written), while the post-then-read
round trip succeeds for every all-lowercase name. -/
theorem channel_case_asymmetry (st : Registry) (ch u m : String)
    (hu : u ≠ "") (hm : m ≠ "") :
    ((∃ c ∈ ch.data, 65 ≤ c.toNat ∧ c.toNat ≤ 90) →
      st (goToLower ch) = none →
      (postMessage st ch u m).1 ch =
        some ⟨msgsOf st ch ++ [⟨((msgsOf st ch).length : Int) + 1, u, m, []⟩],
              ((st ch).getD ⟨[], ""⟩).title⟩ ∧
      (getMessage ((postMessage st ch u m).1) ch 0).2 = .noSuchChannel) ∧
    (goToLower ch = ch →
      (getMessage ((postMessage st ch u m).1) ch 0).2 =
        .messages (msgsOf st ch ++
          [⟨((msgsOf st ch).length : Int) + 1, u, m, []⟩])) := by
  constructor
  · intro hup habs
    have hne := goToLower_ne_of_upper ch hup
    constructor
    · rw [postMessage_ok_fst st ch u m hu hm, setChannel_self]
    · have habs2 : (postMessage st ch u m).1 (goToLower ch) = none := by
        rw [postMessage_ok_fst st ch u m hu hm, setChannel_ne st _ hne, habs]
      rw [getMessage_noChannel _ ch 0 habs2]
  · intro hlow
    have hch2 : (postMessage st ch u m).1 (goToLower ch) =
        some ⟨msgsOf st ch ++ [⟨((msgsOf st ch).length : Int) + 1, u, m, []⟩],
              ((st ch).getD ⟨[], ""⟩).title⟩ := by
      rw [hlow, postMessage_ok_fst st ch u m hu hm, setChannel_self]
    have hlen : (0 : Int) <
        ((msgsOf st ch ++
            [(⟨((msgsOf st ch).length : Int) + 1, u, m, []⟩ : msgPost)]).length : Int) := by
      simp
    rw [getMessage_suffix _ ch _ 0 hch2 (le_refl 0) hlen]
    simp

/-- Witness for C7 at concrete inputs: a post to `"Alpha"` is stored verbatim
and unreadable via the lowercasing read path, while the round trip on the
all-lowercase `"x"` succeeds. -/
theorem channel_case_asymmetry_witness :
    (postMessage initialRegistry "Alpha" "a" "hi").1 "Alpha" =
      some ⟨[⟨1, "a", "hi", []⟩], ""⟩ ∧
    (getMessage ((postMessage initialRegistry "Alpha" "a" "hi").1) "Alpha" 0).2 =
      .noSuchChannel ∧
    (getMessage ((postMessage initialRegistry "x" "a" "hi").1) "x" 0).2 =
      .messages [⟨1, "a", "hi", []⟩] := by
  have hA := channel_case_asymmetry initialRegistry "Alpha" "a" "hi"
    (by decide) (by decide)
  have hx := channel_case_asymmetry initialRegistry "x" "a" "hi"
    (by decide) (by decide)
  have h1 := hA.1 (by decide) (by decide)
  exact ⟨h1.1, h1.2, hx.2 (by decide)⟩
